import Mathlib

/-!
# Verification of the-claude-index crawl scripts

Shallow embedding of `src/scripts/github_api.py`, `src/scripts/initial_scrape.py`
and `src/scripts/update_today.py`.

Modelling conventions:
* ISO date strings (`"YYYY-MM-DD"`) are ordered lexicographically, which agrees
  with chronological order; we model a date as a `Nat` (days since an epoch).
* A Python `dict` (insertion ordered, unique keys) is modelled as an
  association list; a Python `set` as a duplicate-free list (kept
  duplicate-free by the insertion operation), `sorted(s)` as an insertion
  sort of that list, and `==` on sets as extensional membership equality.
* Times of day (`"HH:MM"` strings in the source, converted by
  `_time_to_minutes` / `_minutes_to_time`) are modelled directly as minutes
  since midnight (`Nat`), `"24:00"` being 1440.
* Network effects are modelled by oracles: a function from the request
  parameters (and, for the transport, the attempt index) to the response.
* `step = span / n_splits` in `_fetch_repos_adaptive` is IEEE float division
  and `int(i * step)` truncates; for every reachable triple
  (2 ≤ span ≤ 1440, 2 ≤ k ≤ min 12 span, 0 ≤ i < k — the only indices whose
  value survives, since the `i = k-1` iteration overrides `sub_end` with
  `end_min`) the float computation coincides exactly with the integer floor
  division `(i * span) / k`, which is how it is embedded here.
-/

namespace ClaudeIndex

/-- Module-level constant `MAX_RETRIES` (github_api.py line 25). -/
def MAX_RETRIES : Nat := 3

/-- Module-level constant `MAX_FAILED_RETRY` (update_today.py line 28). -/
def MAX_FAILED_RETRY : Nat := 10

/-! ## Python dict primitives (association list with unique keys) -/

/-- `m.get(d)`: value of the first binding of key `d`, if any. -/
def dictGet (m : List (Nat × Nat)) (d : Nat) : Option Nat :=
  match m with
  | [] => none
  | (k, v) :: rest => if k = d then some v else dictGet rest d

/-- `m[d] = v`: replace the value of the first binding of `d` in place,
or append a fresh binding at the end (Python dicts keep insertion order). -/
def dictSet (m : List (Nat × Nat)) (d : Nat) (v : Nat) : List (Nat × Nat) :=
  match m with
  | [] => [(d, v)]
  | (k, w) :: rest => if k = d then (k, v) :: rest else (k, w) :: dictSet rest d v

/-! ## Python set primitives (duplicate-free list) -/

/-- `s.add(d)`: insert into a set, a no-op when already present. -/
def setAdd (s : List Nat) (d : Nat) : List Nat :=
  if d ∈ s then s else s ++ [d]

/-- Python `==` on sets: extensional membership equality of the
duplicate-free lists representing them. -/
def setEq (a b : List Nat) : Bool :=
  a.all b.contains && b.all a.contains

/-! ## Crawl state (`contributions.json` in memory) -/

/-- The mutable crawl state shared by both scripts: the `contributions`
date→count mapping and the `failed_dates` set. -/
structure CrawlState where
  contributions : List (Nat × Nat)
  failedDates : List Nat
deriving DecidableEq

/-- The data-model invariant claimed by the spec: every date in
`failed_dates` is absent from `contributions`. -/
def disjointState (s : CrawlState) : Prop :=
  ∀ d ∈ s.failedDates, dictGet s.contributions d = none

instance (s : CrawlState) : Decidable (disjointState s) :=
  List.decidableBAll _ s.failedDates

/-- The per-date transition shared by `initial_scrape.main` (lines 184-191)
and `update_today.main` (lines 156-166): on success the count is written to
`contributions` and the date discarded from `failed_dates`; on failure the
date is added to `failed_dates` (and `contributions` is left untouched). -/
def applyFetch (s : CrawlState) (d : Nat) (res : Option Nat) : CrawlState :=
  match res with
  | some c => ⟨dictSet s.contributions d c, s.failedDates.erase d⟩
  | none => ⟨s.contributions, setAdd s.failedDates d⟩

/-- The fetch loop of `initial_scrape.main` (lines 175-200), folding the
per-date transition over the work list (cooldowns and checkpoint saves do
not alter the in-memory state). -/
def runFetches (s : CrawlState) (dates : List Nat) (fetch : Nat → Option Nat) :
    CrawlState :=
  dates.foldl (fun st d => applyFetch st d (fetch d)) s

/-! ## Search API bodies

A parsed JSON body of the commit-search endpoint. `total_count` is optional
to model `body.get("total_count", 0)` on a body lacking the field; an item's
`repository.full_name` is optional to model `repo.get("full_name")`, and the
source guards with Python truthiness (`if full_name:`), so an empty string is
also skipped. -/

/-- One element of the `items` array: its `repository.full_name`, if any. -/
structure SearchItem where
  fullName : Option String
deriving DecidableEq

/-- A parsed commit-search response body. -/
structure SearchBody where
  totalCount : Option Nat
  items : List SearchItem
deriving DecidableEq

/-- `repos.add(full_name)`: Python set insertion, modelled on a duplicate-free
list so that the insertion order of first occurrences is kept. -/
def insertRepo (s : List String) (r : String) : List String :=
  if r ∈ s then s else s ++ [r]

/-- The inner loop over `body.get("items", [])` shared by
`_fetch_repos_for_window` (lines 223-227) and the best-effort scan
(lines 267-271): add each item's truthy `repository.full_name` to the set. -/
def collectItems (repos : List String) (items : List SearchItem) : List String :=
  items.foldl
    (fun acc it =>
      match it.fullName with
      | some n => if n = "" then acc else insertRepo acc n
      | none => acc)
    repos

/-- A single page request `(page, per_page)` issued by `_fetch_commits_page`. -/
structure PageRequest where
  page : Nat
  perPage : Nat
deriving DecidableEq

/-- A window's page oracle: the response of `_fetch_commits_page` for the
window's query at a given `(page, per_page)`, `none` meaning `_api_request`
returned `None`. -/
abbrev PageOracle := Nat → Nat → Option SearchBody

/-- One iteration of the pagination loop of `_fetch_repos_for_window`
(lines 218-227): request the page at size 100 and log it; a page whose
request returns no usable body is skipped (`continue`), otherwise its
items' full names are added to the set. -/
def pageStep (oracle : PageOracle) (acc : List String × List PageRequest)
    (p : Nat) : List String × List PageRequest :=
  match oracle p 100 with
  | none => (acc.1, acc.2 ++ [⟨p, 100⟩])
  | some b => (collectItems acc.1 b.items, acc.2 ++ [⟨p, 100⟩])

/-- `_fetch_repos_for_window` (github_api.py lines 190-229), together with the
list of page requests it issues. The first component mirrors the source's
return value: `none` for API failure of the probe, `some (none, tc)` when
`total_count > 1000`, and `some (some repos, tc)` otherwise. -/
def fetchReposForWindow (oracle : PageOracle) :
    Option (Option (List String) × Nat) × List PageRequest :=
  match oracle 1 1 with
  | none => (none, [⟨1, 1⟩])
  | some body =>
    let tc := body.totalCount.getD 0
    if tc = 0 then (some (some [], 0), [⟨1, 1⟩])
    else if tc > 1000 then (some (none, tc), [⟨1, 1⟩])
    else
      let pagesNeeded := (tc + 99) / 100
      let res := (List.range' 1 pagesNeeded).foldl (pageStep oracle) ([], [⟨1, 1⟩])
      (some (some res.1, tc), res.2)

/-! ## Work-list construction -/

/-- `date_range` (initial_scrape.py lines 135-139): the inclusive chronological
range from `startD` through `endD` (empty when `endD < startD`). -/
def dateRange (startD endD : Nat) : List Nat :=
  List.range' startD (endD + 1 - startD)

/-- The work-list construction of `initial_scrape.main` (lines 150-160):
sorted previously-failed dates first, then every date from the scrape start
date through yesterday that is neither in `contributions` nor in
`failed_dates`. -/
def datesToFetch (contributions : List (Nat × Nat)) (failed : List Nat)
    (startD yesterday : Nat) : List Nat :=
  failed.insertionSort (· ≤ ·) ++
    (dateRange startD yesterday).filter
      (fun d => (dictGet contributions d).isNone && !(failed.contains d))

/-- The work-list construction of `update_today.main` (lines 142-148):
`[yesterday, today]`, then the first `MAX_FAILED_RETRY` sorted failed dates,
each appended only if not already in the list. -/
def updateDatesToFetch (failed : List Nat) (today yesterday : Nat) :
    List Nat :=
  ((failed.insertionSort (· ≤ ·)).take MAX_FAILED_RETRY).foldl
    (fun acc d => if acc.contains d then acc else acc ++ [d])
    [yesterday, today]

/-! ## The lightweight update run (`update_today.main`, lines 132-179) -/

/-- Result of one `update_today.main` run: the in-memory state, the in-memory
`last_updated` stamp, and whether `save_data` was called (the only code path
that writes the file and re-stamps `last_updated`). -/
structure UpdateResult where
  state : CrawlState
  lastUpdated : Option Nat
  wrote : Bool
deriving DecidableEq

/-- One iteration of the fetch loop of `update_today.main` (lines 153-168),
threading the `changed` flag: a success writes the count and discards the
date from the failed set, setting `changed` when the stored value differed
(`old_val != count`, where a previously absent value always differs); a
failure adds the date to the failed set and always sets `changed`. -/
def updateStep (fetch : Nat → Option Nat) (acc : CrawlState × Bool) (d : Nat) :
    CrawlState × Bool :=
  match fetch d with
  | some c =>
    let oldVal := dictGet acc.1.contributions d
    (⟨dictSet acc.1.contributions d c, acc.1.failedDates.erase d⟩,
      acc.2 || decide (oldVal ≠ some c))
  | none => (⟨acc.1.contributions, setAdd acc.1.failedDates d⟩, true)

/-- `update_today.main` (lines 132-179): fetch yesterday, today and up to
`MAX_FAILED_RETRY` previously failed dates; afterwards also set `changed`
when the failed set differs from the loaded one (`failed_dates != old_failed`);
write (via `save_data`, which stamps `last_updated := now`) only when
`changed`. -/
def updateRun (loaded : CrawlState) (loadedLU : Option Nat) (today yesterday : Nat)
    (now : Nat) (fetch : Nat → Option Nat) : UpdateResult :=
  let dates := updateDatesToFetch loaded.failedDates today yesterday
  let res := dates.foldl (updateStep fetch) (loaded, false)
  let changed := res.2 || !(setEq res.1.failedDates loaded.failedDates)
  if changed then
    ⟨⟨res.1.contributions, res.1.failedDates.insertionSort (· ≤ ·)⟩, some now, true⟩
  else ⟨res.1, loadedLU, false⟩

/-! ## Adaptive splitter (`_fetch_repos_adaptive`, github_api.py lines 232-300) -/

/-- The split factor (lines 274-275):
`n_splits = min(max(2, total_count // 800), 12)` then
`n_splits = min(n_splits, span)`. -/
def nSplits (totalCount span : Nat) : Nat :=
  min (min (max 2 (totalCount / 800)) 12) span

/-- The sub-windows generated by the split loop (lines 280-284):
`sub_start = start_min + int(i * step)`, `sub_end = start_min + int((i+1) * step)`
with `step = span / n_splits`, the last window's end overridden by `end_min`.
For every index whose value the source keeps, `int(i * step)` equals the
integer floor division `i * span / k` (see the header comment). -/
def subWindows (startMin endMin k : Nat) : List (Nat × Nat) :=
  let span := endMin - startMin
  (List.range k).map fun i =>
    (startMin + i * span / k,
     if i = k - 1 then endMin else startMin + (i + 1) * span / k)

/-- The `i`-th generated sub-window (defaulting to `(0, 0)` out of range). -/
def subW (startMin endMin k i : Nat) : Nat × Nat :=
  (subWindows startMin endMin k).getD i (0, 0)

/-- The best-effort scan at the recursion floor (lines 259-271):
`for page in range(1, 11)`, breaking on a failed request or an empty items
array, collecting full names otherwise. Also returns the pages requested. -/
def floorScanGo (oracle : PageOracle) (repos : List String) :
    Nat → Nat → List String × List Nat
  | _, 0 => (repos, [])
  | page, rem + 1 =>
    match oracle page 100 with
    | none => (repos, [page])
    | some b =>
      if b.items.isEmpty then (repos, [page])
      else
        let r := floorScanGo oracle (collectItems repos b.items) (page + 1) rem
        (r.1, page :: r.2)

/-- The floor scan starting at page 1 with at most 10 pages. -/
def floorScan (oracle : PageOracle) : List String × List Nat :=
  floorScanGo oracle [] 1 10

/-- A window oracle: for each `(startMin, endMin)` window of the day, the
page oracle of that window's query. -/
abbrev WOracle := Nat → Nat → PageOracle

/-- `_fetch_repos_adaptive` (lines 232-300), instrumented with a `fuel`
argument bounding the recursion depth: `none` means the fuel ran out (the
sufficiency theorem shows this never happens once `maxDepth - depth < fuel`),
`some r` that the source returns `r` (`r = none` being the source's `None`
on probe failure). A sub-window whose recursive call fails contributes
nothing to the union (lines 297-298). -/
def adaptiveFuel (oracle : WOracle) :
    Nat → Nat → Nat → Nat → Nat → Option (Option (List String))
  | 0, _, _, _, _ => none
  | fuel + 1, startMin, endMin, depth, maxDepth =>
    match (fetchReposForWindow (oracle startMin endMin)).1 with
    | none => some none
    | some (some repos, _) => some (some repos)
    | some (none, totalCount) =>
      let span := endMin - startMin
      if depth ≥ maxDepth ∨ span < 2 then
        some (some (floorScan (oracle startMin endMin)).1)
      else
        let k := nSplits totalCount span
        let res := (subWindows startMin endMin k).foldl
          (fun (acc : Option (List String)) w =>
            match acc with
            | none => none
            | some allRepos =>
              match adaptiveFuel oracle fuel w.1 w.2 (depth + 1) maxDepth with
              | none => none
              | some none => some allRepos
              | some (some subRepos) => some (subRepos.foldl insertRepo allRepos))
          (some [])
        match res with
        | none => none
        | some allRepos => some (some allRepos)

/-! ## Transport (`_api_request`, github_api.py lines 96-137) -/

/-- The per-attempt classification of a response, at the granularity of the
source's exception handlers: a parsed 2xx body, an `HTTPError` with its
status code, or a network-level `URLError`/`OSError`. -/
inductive HttpOutcome where
  | success (body : SearchBody)
  | httpError (code : Nat)
  | netError
deriving DecidableEq

/-- The outcome of each attempt of a fixed request, by attempt index. -/
abbrev AttemptOracle := Nat → HttpOutcome

/-- Whether an outcome takes one of the retrying branches (403, 429, 5xx,
network error) rather than returning. -/
def retryableOutcome (o : HttpOutcome) : Bool :=
  match o with
  | .success _ => false
  | .httpError code => decide (code = 403 ∨ code = 429 ∨ 500 ≤ code)
  | .netError => true

/-- The retry loop of `_api_request` (lines 103-137): `rem` attempts remain,
`used` attempts were consumed. Returns the parsed body (or `None`) and the
number of attempts consumed. Rate limits (403/429) and server (5xx) or
network errors sleep and retry; any other `HTTPError` returns `None` at
once; falling off the loop returns `None`. -/
def apiRequestGo (oracle : AttemptOracle) : Nat → Nat → Option SearchBody × Nat
  | 0, used => (none, used)
  | rem + 1, used =>
    match oracle used with
    | .success body => (some body, used + 1)
    | .httpError code =>
      if code = 403 then apiRequestGo oracle rem (used + 1)
      else if code = 429 then apiRequestGo oracle rem (used + 1)
      else if 500 ≤ code then apiRequestGo oracle rem (used + 1)
      else (none, used + 1)
    | .netError => apiRequestGo oracle rem (used + 1)

/-- `_api_request` (lines 96-137): at most `MAX_RETRIES` attempts. -/
def apiRequest (oracle : AttemptOracle) : Option SearchBody × Nat :=
  apiRequestGo oracle MAX_RETRIES 0

/-- `fetch_commit_count` (github_api.py lines 140-150, identical inlined
copies in initial_scrape.py lines 86-132 and update_today.py lines 83-129):
`None` on transport failure, else `body.get("total_count", 0)`. -/
def fetchCommitCount (oracle : AttemptOracle) : Option Nat :=
  match (apiRequest oracle).1 with
  | none => none
  | some body => some (body.totalCount.getD 0)

/-! ## Atomic persistence (`save_data`, github_api.py lines 77-93)

`save_data` creates a fresh temporary file in the data directory
(`tempfile.mkstemp`), streams the serialized state into it, and then calls
`os.replace(tmp_path, DATA_FILE)`, which atomically renames the temporary
file over the destination; on any exception it unlinks the temporary file
and re-raises. The filesystem is modelled by the contents of the
destination file and of the temporary file; the serialized state is an
arbitrary character stream, written one character at a time so that a crash
can interrupt the write at any point. -/

/-- Destination file and temporary file contents (`none` = absent). -/
structure FS where
  dest : Option (List Char)
  tmp : Option (List Char)
deriving DecidableEq

/-- Primitive filesystem steps taken by `save_data`: appending one character
to the temporary file, `os.replace(tmp_path, DATA_FILE)`, and
`os.unlink(tmp_path)`. -/
inductive FsOp where
  | writeTmp (c : Char)
  | replaceDestWithTmp
  | unlinkTmp
deriving DecidableEq

/-- Effect of one primitive step. `os.replace` atomically makes the
destination the temporary file's content and removes the temporary name. -/
def applyOp (fs : FS) : FsOp → FS
  | .writeTmp c => ⟨fs.dest, some (fs.tmp.getD [] ++ [c])⟩
  | .replaceDestWithTmp => ⟨fs.tmp, none⟩
  | .unlinkTmp => ⟨fs.dest, none⟩

/-- The step sequence of a `save_data` call serializing `content`: stream
the content into the temporary file, then atomically replace. -/
def saveProgram (content : List Char) : List FsOp :=
  content.map FsOp.writeTmp ++ [FsOp.replaceDestWithTmp]

/-- The filesystem after the first `n` steps of `save_data` (a crash is a
prefix of the step sequence), starting from destination content `dest0` and
the empty temporary file `mkstemp` creates. -/
def saveRun (dest0 : Option (List Char)) (content : List Char) (n : Nat) : FS :=
  ((saveProgram content).take n).foldl applyOp ⟨dest0, some []⟩

/-- The exception path of `save_data` (lines 88-93): after `n` completed
steps, the handler unlinks the temporary file and re-raises. -/
def saveRunError (dest0 : Option (List Char)) (content : List Char) (n : Nat) : FS :=
  applyOp (saveRun dest0 content n) .unlinkTmp

/-! ## Concrete witness inputs -/

/-- A page oracle reporting zero matches. -/
def orcC4zero : PageOracle := fun _ pp =>
  if pp = 1 then some ⟨some 0, []⟩ else none

/-- A page oracle reporting a non-enumerable count (2500 > 1000). -/
def orcC4big : PageOracle := fun _ pp =>
  if pp = 1 then some ⟨some 2500, []⟩ else none

/-- A page oracle reporting 250 matches; page 2 fails, pages deliver two
distinct names, an item with no name, and an empty name. -/
def orcC4mid : PageOracle := fun p pp =>
  if pp = 1 then some ⟨some 250, []⟩
  else if p = 2 then none
  else some ⟨some 250, [⟨some "a"⟩, ⟨some "b"⟩, ⟨none⟩, ⟨some ""⟩]⟩

/-- A window oracle whose every window reports 2500 matches, so every
split stays above the cap and recursion always hits a floor. -/
def orcC3 : WOracle := fun _ _ _ pp =>
  if pp = 1 then some ⟨some 2500, []⟩ else some ⟨some 2500, [⟨some "x"⟩]⟩

/-- The fetch function of the C8 witness: returns exactly the stored counts. -/
def fetchC8 : Nat → Option Nat :=
  fun d => if d = 5 then some 3 else if d = 6 then some 0 else none

/-! ## Helper lemmas -/

instance (p : Nat → Prop) [DecidablePred p] (l : List Nat) :
    Decidable (∀ x ∈ l, p x) :=
  List.decidableBAll p l

theorem dictGet_dictSet_self (m : List (Nat × Nat)) (d : Nat) (v : Nat) :
    dictGet (dictSet m d v) d = some v := by
  induction m with
  | nil => simp [dictGet, dictSet]
  | cons kv rest ih =>
    obtain ⟨k, w⟩ := kv
    by_cases h : k = d <;> simp [dictGet, dictSet, h, ih]

theorem dictGet_dictSet_ne (m : List (Nat × Nat)) (d e : Nat) (v : Nat)
    (h : e ≠ d) : dictGet (dictSet m d v) e = dictGet m e := by
  induction m with
  | nil => simp [dictGet, dictSet, Ne.symm h]
  | cons kv rest ih =>
    obtain ⟨k, w⟩ := kv
    by_cases hk : k = d
    · subst hk
      simp [dictGet, dictSet, Ne.symm h]
    · simp only [dictSet, if_neg hk, dictGet]
      by_cases hke : k = e <;> simp [hke, ih]

theorem dictSet_self (m : List (Nat × Nat)) (d : Nat) (v : Nat)
    (h : dictGet m d = some v) : dictSet m d v = m := by
  induction m with
  | nil => simp [dictGet] at h
  | cons kv rest ih =>
    obtain ⟨k, w⟩ := kv
    by_cases hk : k = d
    · subst hk
      have hw : w = v := by simpa [dictGet] using h
      simp [dictSet, hw]
    · simp only [dictGet, if_neg hk] at h
      simp [dictSet, hk, ih h]

/-! ## C5: split factor -/

/-- C5: for every non-enumerable window that can still be split (span at
least 2 minutes), the split factor equals
`min(max(2, totalCount // 800), 12)` further clamped to the window's span,
hence `2 ≤ k ≤ 12` and `k ≤ span`. -/
theorem c5_split_factor (totalCount span : Nat) (hspan : 2 ≤ span) :
    nSplits totalCount span = min (min (max 2 (totalCount / 800)) 12) span ∧
    2 ≤ nSplits totalCount span ∧
    nSplits totalCount span ≤ 12 ∧
    nSplits totalCount span ≤ span := by
  refine ⟨rfl, ?_, ?_, ?_⟩ <;> (unfold nSplits; omega)

/-- Witness for C5 at `totalCount = 2500`, `span = 1440`. -/
theorem c5_split_factor_witness :
    nSplits 2500 1440 = min (min (max 2 (2500 / 800)) 12) 1440 ∧
    2 ≤ nSplits 2500 1440 ∧ nSplits 2500 1440 ≤ 12 ∧ nSplits 2500 1440 ≤ 1440 :=
  c5_split_factor 2500 1440 (by decide)

/-! ## C6: transport failure behaviour -/

theorem apiRequestGo_retryable (oracle : AttemptOracle) :
    ∀ rem used, (∀ i, used ≤ i → i < used + rem → retryableOutcome (oracle i) = true) →
      apiRequestGo oracle rem used = (none, used + rem) := by
  intro rem
  induction rem with
  | zero => intro used _; simp [apiRequestGo]
  | succ n ih =>
    intro used h
    have h0 : retryableOutcome (oracle used) = true := h used le_rfl (by omega)
    have hrec : apiRequestGo oracle n (used + 1) = (none, used + 1 + n) :=
      ih (used + 1) (fun i h1 h2 => h i (by omega) (by omega))
    cases ho : oracle used with
    | success body => rw [ho] at h0; simp [retryableOutcome] at h0
    | httpError code =>
      rw [ho] at h0
      simp only [retryableOutcome, decide_eq_true_eq] at h0
      simp only [apiRequestGo, ho]
      split_ifs with hc1 hc2 hc3
      · rw [hrec]; congr 1; omega
      · rw [hrec]; congr 1; omega
      · rw [hrec]; congr 1; omega
      · omega
    | netError =>
      simp only [apiRequestGo, ho]
      rw [hrec]; congr 1; omega

/-- C6: the transport never raises: it returns `None` after its
`MAX_RETRIES` attempts when every response is retryable (403/429/5xx or a
network error), and on an HTTP error status other than 403, 429 and 5xx on
the first response it returns `None` immediately, having consumed exactly
one attempt. -/
theorem c6_transport_failure (oracle : AttemptOracle) :
    ((∀ i, i < MAX_RETRIES → retryableOutcome (oracle i) = true) →
      apiRequest oracle = (none, MAX_RETRIES)) ∧
    (∀ code, oracle 0 = .httpError code → code ≠ 403 → code ≠ 429 → code < 500 →
      apiRequest oracle = (none, 1)) := by
  constructor
  · intro h
    have := apiRequestGo_retryable oracle MAX_RETRIES 0
      (fun i h1 h2 => h i (by omega))
    simpa [apiRequest] using this
  · intro code h0 h403 h429 h500
    have hlt : ¬ (500 ≤ code) := by omega
    show apiRequestGo oracle 3 0 = (none, 1)
    simp [apiRequestGo, h0, h403, h429, hlt]

/-- Witness for C6: all-network-error responses exhaust the 3 attempts; a
404 on the first response fails at once. -/
theorem c6_transport_failure_witness :
    apiRequest (fun _ => .netError) = (none, MAX_RETRIES) ∧
    apiRequest (fun _ => .httpError 404) = (none, 1) :=
  ⟨(c6_transport_failure (fun _ => .netError)).1 (fun i _ => rfl),
   (c6_transport_failure (fun _ => .httpError 404)).2 404 rfl
     (by decide) (by decide) (by decide)⟩

/-! ## C10: a body lacking `total_count` commits a zero -/

/-- C10: a successful response whose parsed body lacks `total_count` makes
`fetch_commit_count` return `0` (not `None`), so the state machine commits
a zero count for the date and does not mark it failed. -/
theorem c10_degenerate_body (oracle : AttemptOracle) (body : SearchBody)
    (h0 : oracle 0 = .success body) (htc : body.totalCount = none)
    (st : CrawlState) (d : Nat) (hnd : st.failedDates.Nodup) :
    fetchCommitCount oracle = some 0 ∧
    dictGet (applyFetch st d (fetchCommitCount oracle)).contributions d = some 0 ∧
    d ∉ (applyFetch st d (fetchCommitCount oracle)).failedDates := by
  have hreq : apiRequest oracle = (some body, 1) := by
    show apiRequestGo oracle 3 0 = _
    simp [apiRequestGo, h0]
  have hfc : fetchCommitCount oracle = some 0 := by
    simp [fetchCommitCount, hreq, htc]
  refine ⟨hfc, ?_, ?_⟩
  · rw [hfc]
    exact dictGet_dictSet_self st.contributions d 0
  · rw [hfc]
    exact hnd.not_mem_erase

/-- Witness for C10: a date previously marked failed is committed as zero. -/
theorem c10_degenerate_body_witness :
    fetchCommitCount (fun _ => .success ⟨none, []⟩) = some 0 ∧
    dictGet (applyFetch ⟨[], [4]⟩ 4
      (fetchCommitCount (fun _ => .success ⟨none, []⟩))).contributions 4 = some 0 ∧
    4 ∉ (applyFetch ⟨[], [4]⟩ 4
      (fetchCommitCount (fun _ => .success ⟨none, []⟩))).failedDates :=
  c10_degenerate_body (fun _ => .success ⟨none, []⟩) ⟨none, []⟩ rfl rfl ⟨[], [4]⟩ 4
    (by decide)

/-! ## C9: atomic persistence -/

theorem foldl_writeTmp (cs : List Char) (dest0 : Option (List Char)) (t : List Char) :
    (cs.map FsOp.writeTmp).foldl applyOp ⟨dest0, some t⟩ = ⟨dest0, some (t ++ cs)⟩ := by
  induction cs generalizing t with
  | nil => simp
  | cons c cs ih =>
    show (cs.map FsOp.writeTmp).foldl applyOp ⟨dest0, some (t ++ [c])⟩ = _
    rw [ih]
    simp

/-- C9: `save_data` is atomic. Running the whole step sequence makes the
destination the new full content and removes the temporary file; stopping
after any proper prefix (a crash at any point of the serialization) leaves
the destination untouched with only the temporary file partially written;
the exception path additionally unlinks the temporary file, leaving the
previous version intact. -/
theorem c9_atomic_save (dest0 : Option (List Char)) (content : List Char)
    (n : Nat) (hn : n ≤ content.length) :
    saveRun dest0 content (content.length + 1) = ⟨some content, none⟩ ∧
    saveRun dest0 content n = ⟨dest0, some (content.take n)⟩ ∧
    saveRunError dest0 content n = ⟨dest0, none⟩ := by
  have hkeep : saveRun dest0 content n = ⟨dest0, some (content.take n)⟩ := by
    unfold saveRun saveProgram
    rw [List.take_append_of_le_length (by simpa using hn), ← List.map_take]
    simpa using foldl_writeTmp (content.take n) dest0 []
  have hlen : (saveProgram content).length = content.length + 1 := by
    simp [saveProgram]
  have hfull : saveRun dest0 content (content.length + 1) = ⟨some content, none⟩ := by
    unfold saveRun
    rw [← hlen, List.take_length]
    unfold saveProgram
    rw [List.foldl_append, foldl_writeTmp]
    rfl
  exact ⟨hfull, hkeep, by unfold saveRunError; rw [hkeep]; rfl⟩

/-- Witness for C9 with two-character content, crashing after one step. -/
theorem c9_atomic_save_witness :
    saveRun (some ['x']) ['a', 'b'] 3 = ⟨some ['a', 'b'], none⟩ ∧
    saveRun (some ['x']) ['a', 'b'] 1 = ⟨some ['x'], some ['a']⟩ ∧
    saveRunError (some ['x']) ['a', 'b'] 1 = ⟨some ['x'], none⟩ :=
  c9_atomic_save (some ['x']) ['a', 'b'] 1 (by decide)

/-! ## C7: work-list construction -/

theorem contains_eq_false_iff (l : List Nat) (a : Nat) :
    l.contains a = false ↔ a ∉ l :=
  Bool.eq_false_iff.trans (not_congr List.elem_iff)

theorem datesToFetch_lookup (contributions : List (Nat × Nat)) (failed : List Nat)
    (startD yesterday : Nat)
    (h : ∀ d ∈ failed, dictGet contributions d = none) :
    ∀ d ∈ datesToFetch contributions failed startD yesterday,
      dictGet contributions d = none := by
  intro d hd
  rcases List.mem_append.mp hd with hf | hg
  · exact h d ((List.perm_insertionSort (· ≤ ·) failed).mem_iff.mp hf)
  · have h2 := (List.mem_filter.mp hg).2
    simp only [Bool.and_eq_true, Option.isNone_iff_eq_none] at h2
    exact h2.1

theorem datesToFetch_nodup (contributions : List (Nat × Nat)) (failed : List Nat)
    (startD yesterday : Nat) (hfn : failed.Nodup) :
    (datesToFetch contributions failed startD yesterday).Nodup := by
  unfold datesToFetch dateRange
  apply List.Nodup.append
    (((List.perm_insertionSort (· ≤ ·) failed).nodup_iff).mpr hfn)
    ((List.nodup_range' _ _).filter _)
  intro d hdf hdg
  have h1 : d ∈ failed := (List.perm_insertionSort (· ≤ ·) failed).mem_iff.mp hdf
  have h2 := (List.mem_filter.mp hdg).2
  simp only [Bool.and_eq_true, Bool.not_eq_true'] at h2
  exact (contains_eq_false_iff failed d).mp h2.2 h1

/-- C7: the full crawl's work list is exactly the sorted previously-failed
dates followed by the chronological dates from the scrape start date
through yesterday present neither in the series nor in the failed set; it
has no duplicate, the failed block is sorted and contains every failed
date, and the gap block is characterised by range, absence from the series
and absence from the failed set. -/
theorem c7_worklist (contributions : List (Nat × Nat)) (failed : List Nat)
    (startD yesterday : Nat) (hfn : failed.Nodup) :
    datesToFetch contributions failed startD yesterday =
      failed.insertionSort (· ≤ ·) ++
        (dateRange startD yesterday).filter
          (fun d => (dictGet contributions d).isNone && !(failed.contains d)) ∧
    (datesToFetch contributions failed startD yesterday).Nodup ∧
    (failed.insertionSort (· ≤ ·)).Sorted (· ≤ ·) ∧
    (∀ d ∈ failed, d ∈ failed.insertionSort (· ≤ ·)) ∧
    (∀ d, d ∈ (dateRange startD yesterday).filter
        (fun d => (dictGet contributions d).isNone && !(failed.contains d)) ↔
      startD ≤ d ∧ d ≤ yesterday ∧ dictGet contributions d = none ∧ d ∉ failed) := by
  refine ⟨rfl, datesToFetch_nodup _ _ _ _ hfn, List.sorted_insertionSort _ _,
    fun d hd => (List.perm_insertionSort (· ≤ ·) failed).mem_iff.mpr hd, fun d => ?_⟩
  rw [List.mem_filter]
  unfold dateRange
  rw [List.mem_range'_1]
  simp only [Bool.and_eq_true, Option.isNone_iff_eq_none, Bool.not_eq_true',
    contains_eq_false_iff]
  constructor
  · rintro ⟨⟨h1, h2⟩, h3, h4⟩
    exact ⟨h1, by omega, h3, h4⟩
  · rintro ⟨h1, h2, h3, h4⟩
    exact ⟨⟨h1, by omega⟩, h3, h4⟩

/-- Witness for C7 on a concrete loaded state. -/
theorem c7_worklist_witness :
    datesToFetch [(3, 1), (5, 2)] [4, 2] 1 6 =
      [4, 2].insertionSort (· ≤ ·) ++
        (dateRange 1 6).filter
          (fun d => (dictGet [(3, 1), (5, 2)] d).isNone &&
            !([4, 2].contains d)) ∧
    (datesToFetch [(3, 1), (5, 2)] [4, 2] 1 6).Nodup ∧
    2 ∈ [4, 2].insertionSort (· ≤ ·) ∧
    6 ∈ (dateRange 1 6).filter
      (fun d => (dictGet [(3, 1), (5, 2)] d).isNone &&
        !([4, 2].contains d)) := by
  have h := c7_worklist [(3, 1), (5, 2)] [4, 2] 1 6 (by decide)
  exact ⟨h.1, h.2.1, h.2.2.2.1 2 (by decide), (h.2.2.2.2 6).mpr (by decide)⟩

/-! ## C1: series / failed-set disjointness -/

theorem mem_setAdd (l : List Nat) (d e : Nat) :
    e ∈ setAdd l d ↔ e ∈ l ∨ e = d := by
  unfold setAdd
  split_ifs with hm
  · constructor
    · exact Or.inl
    · rintro (h | rfl)
      · exact h
      · exact hm
  · simp

theorem nodup_setAdd (l : List Nat) (d : Nat) (h : l.Nodup) :
    (setAdd l d).Nodup := by
  unfold setAdd
  split_ifs with hm
  · exact h
  · refine h.append (List.nodup_singleton d) ?_
    intro a ha hb
    rw [List.mem_singleton.mp hb] at ha
    exact hm ha

theorem nodup_applyFetch (s : CrawlState) (d : Nat) (res : Option Nat)
    (h : s.failedDates.Nodup) : (applyFetch s d res).failedDates.Nodup := by
  cases res with
  | some c => exact h.erase d
  | none => exact nodup_setAdd _ d h

theorem disjoint_applyFetch_success (s : CrawlState) (d : Nat) (c : Nat)
    (h : disjointState s) (hnd : s.failedDates.Nodup) :
    disjointState (applyFetch s d (some c)) := by
  intro e he
  simp only [applyFetch] at he ⊢
  obtain ⟨hne, he1⟩ := (hnd.mem_erase_iff).mp he
  rw [dictGet_dictSet_ne s.contributions d e c hne]
  exact h e he1

theorem disjoint_applyFetch_fail (s : CrawlState) (d : Nat)
    (h : disjointState s) (hd : dictGet s.contributions d = none) :
    disjointState (applyFetch s d none) := by
  intro e he
  simp only [applyFetch] at he ⊢
  rcases (mem_setAdd _ _ _).mp he with he1 | rfl
  · exact h e he1
  · exact hd

theorem runFetches_disjoint (ws : List Nat) :
    ∀ (s : CrawlState) (fetch : Nat → Option Nat), disjointState s →
      s.failedDates.Nodup →
      (∀ d ∈ ws, dictGet s.contributions d = none) → ws.Nodup →
      disjointState (runFetches s ws fetch) := by
  induction ws with
  | nil => intro s fetch h _ _ _; exact h
  | cons d rest ih =>
    intro s fetch h hfnd habs hnd
    show disjointState (runFetches (applyFetch s d (fetch d)) rest fetch)
    cases hf : fetch d with
    | some c =>
      refine ih (applyFetch s d (some c)) fetch
        (disjoint_applyFetch_success s d c h hfnd)
        (nodup_applyFetch s d (some c) hfnd) ?_ hnd.of_cons
      intro e he
      have hne : e ≠ d := by
        rintro rfl
        exact (List.nodup_cons.mp hnd).1 he
      simp only [applyFetch]
      rw [dictGet_dictSet_ne s.contributions d e c hne]
      exact habs e (List.mem_cons_of_mem d he)
    | none =>
      refine ih (applyFetch s d none) fetch
        (disjoint_applyFetch_fail s d h (habs d (List.mem_cons_self d rest)))
        (nodup_applyFetch s d none hfnd) ?_ hnd.of_cons
      intro e he
      simp only [applyFetch]
      exact habs e (List.mem_cons_of_mem d he)

/-- C1 counterexample: the claimed invariant fails on the lightweight
variant. Load a state whose series already holds yesterday (date 5, count
3) with no failed date, and let every fetch of the run fail: the failure
transition adds date 5 to `failed_dates` without removing it from the
series, so the resulting state has date 5 in both — refuting "no date ever
appears simultaneously in series and in the failed set" for per-date
transitions of the lightweight variant. -/
theorem c1_counterexample :
    disjointState ⟨[(5, 3)], []⟩ ∧
    ¬ disjointState
      (updateRun ⟨[(5, 3)], []⟩ (some 7) 6 5 11 (fun _ => none)).state := by
  decide

/-- C1 (amended): a success always writes the count and removes the date
from the failed set; disjointness of series and failed set is preserved by
every success transition and by every failure transition on a date absent
from the series — in particular by every transition of the full crawl,
whose work list only contains dates absent from the series. (The
lightweight variant's failure transition on a date already in the series
violates disjointness, per the counterexample.) -/
theorem c1_invariant_amended (s : CrawlState) (d : Nat) (c : Nat)
    (hdisj : disjointState s) (hnd : s.failedDates.Nodup) :
    (dictGet (applyFetch s d (some c)).contributions d = some c ∧
      d ∉ (applyFetch s d (some c)).failedDates) ∧
    disjointState (applyFetch s d (some c)) ∧
    (dictGet s.contributions d = none → disjointState (applyFetch s d none)) ∧
    (∀ startD yesterday fetch,
      disjointState (runFetches s
        (datesToFetch s.contributions s.failedDates startD yesterday) fetch)) := by
  refine ⟨⟨dictGet_dictSet_self _ _ _, hnd.not_mem_erase⟩,
    disjoint_applyFetch_success s d c hdisj hnd,
    fun hd => disjoint_applyFetch_fail s d hdisj hd,
    fun startD yesterday fetch => ?_⟩
  exact runFetches_disjoint _ s fetch hdisj hnd
    (datesToFetch_lookup s.contributions s.failedDates startD yesterday hdisj)
    (datesToFetch_nodup s.contributions s.failedDates startD yesterday hnd)

/-- Witness for the amended C1 on a concrete disjoint state. -/
theorem c1_invariant_amended_witness :
    (dictGet (applyFetch ⟨[(3, 1)], [2]⟩ 9 (some 4)).contributions 9 = some 4 ∧
      9 ∉ (applyFetch ⟨[(3, 1)], [2]⟩ 9 (some 4)).failedDates) ∧
    disjointState (applyFetch ⟨[(3, 1)], [2]⟩ 9 (some 4)) ∧
    disjointState (applyFetch ⟨[(3, 1)], [2]⟩ 9 none) ∧
    disjointState (runFetches ⟨[(3, 1)], [2]⟩
      (datesToFetch [(3, 1)] [2] 1 4) (fun _ => some 0)) := by
  have h := c1_invariant_amended ⟨[(3, 1)], [2]⟩ 9 4 (by decide) (by decide)
  exact ⟨h.1, h.2.1, h.2.2.1 (by decide), h.2.2.2 1 4 (fun _ => some 0)⟩

/-! ## C8: no-op detection of the lightweight update -/

theorem setEq_self (l : List Nat) : setEq l l = true := by
  unfold setEq
  rw [Bool.and_eq_true]
  constructor <;>
    (rw [List.all_eq_true]; intro x hx; exact List.elem_iff.mpr hx)

theorem updateFold_noop (fetch : Nat → Option Nat) (loaded : CrawlState) :
    ∀ ds : List Nat,
      (∀ d ∈ ds, fetch d = dictGet loaded.contributions d ∧
        (dictGet loaded.contributions d).isSome = true ∧
        d ∉ loaded.failedDates) →
      ds.foldl (updateStep fetch) (loaded, false) = (loaded, false) := by
  intro ds
  induction ds with
  | nil => intro _; rfl
  | cons d rest ih =>
    intro h
    obtain ⟨hf, hs, hnf⟩ := h d (List.mem_cons_self d rest)
    obtain ⟨c, hc⟩ := Option.isSome_iff_exists.mp hs
    have hstep : updateStep fetch (loaded, false) d = (loaded, false) := by
      unfold updateStep
      rw [hf, hc]
      simp only [dictSet_self _ _ _ hc, List.erase_of_not_mem hnf, hc]
      simp
    show rest.foldl (updateStep fetch) (updateStep fetch (loaded, false) d) =
      (loaded, false)
    rw [hstep]
    exact ih (fun e he => h e (List.mem_cons_of_mem d he))

/-- C8: when every fetched date's count comes back equal to its stored
value and no fetched date is in the loaded failed set (so failed-set
membership is unchanged versus the loaded snapshot), the lightweight update
performs no write: the state, including the `last_updated` stamp, is
exactly the loaded one, and running it a second time is again a no-op. -/
theorem c8_noop_idempotent (loaded : CrawlState) (loadedLU : Option Nat)
    (today yesterday now : Nat) (fetch : Nat → Option Nat)
    (h : ∀ d ∈ updateDatesToFetch loaded.failedDates today yesterday,
      fetch d = dictGet loaded.contributions d ∧
      (dictGet loaded.contributions d).isSome = true ∧
      d ∉ loaded.failedDates) :
    updateRun loaded loadedLU today yesterday now fetch =
      ⟨loaded, loadedLU, false⟩ ∧
    updateRun (updateRun loaded loadedLU today yesterday now fetch).state
      (updateRun loaded loadedLU today yesterday now fetch).lastUpdated
      today yesterday now fetch = ⟨loaded, loadedLU, false⟩ := by
  have h1 : updateRun loaded loadedLU today yesterday now fetch =
      ⟨loaded, loadedLU, false⟩ := by
    unfold updateRun
    dsimp only
    rw [updateFold_noop fetch loaded _ h]
    simp [setEq_self]
  exact ⟨h1, by rw [h1]; exact h1⟩

/-- Witness for C8: a loaded state holding yesterday (5 ↦ 3) and today
(6 ↦ 0), with a fetch returning exactly those counts. -/
theorem c8_noop_idempotent_witness :
    updateRun ⟨[(5, 3), (6, 0)], []⟩ (some 7) 6 5 11 fetchC8 =
      ⟨⟨[(5, 3), (6, 0)], []⟩, some 7, false⟩ ∧
    updateRun (updateRun ⟨[(5, 3), (6, 0)], []⟩ (some 7) 6 5 11 fetchC8).state
      (updateRun ⟨[(5, 3), (6, 0)], []⟩ (some 7) 6 5 11 fetchC8).lastUpdated
      6 5 11 fetchC8 = ⟨⟨[(5, 3), (6, 0)], []⟩, some 7, false⟩ :=
  c8_noop_idempotent ⟨[(5, 3), (6, 0)], []⟩ (some 7) 6 5 11 fetchC8 (by decide)

/-! ## C2: sub-window tiling -/

theorem subW_eq (s e k i : Nat) (h : i < k) :
    subW s e k i = (s + i * (e - s) / k,
      if i = k - 1 then e else s + (i + 1) * (e - s) / k) := by
  simp [subW, subWindows, List.getD_eq_getElem?_getD, List.getElem?_map,
    List.getElem?_range, h]

theorem div_mul_span_lt (a k i : Nat) (hk2 : 2 ≤ k) (hka : k ≤ a) :
    i * a / k < (i + 1) * a / k := by
  have h1 : i * a / k + 1 = (i * a + k) / k := (Nat.add_div_right _ (by omega)).symm
  have h2 : i * a + k ≤ (i + 1) * a := by
    have : (i + 1) * a = i * a + a := by ring
    omega
  have h3 : (i * a + k) / k ≤ (i + 1) * a / k := Nat.div_le_div_right h2
  omega

theorem last_div_lt (a k : Nat) (hk2 : 2 ≤ k) (hka : k ≤ a) :
    (k - 1) * a / k < a := by
  have h1 : (k - 1) * a ≤ k * (a - 1) := by
    have e1 : (k - 1) * a = k * a - a := by
      rw [Nat.sub_one_mul]
    have e2 : k * (a - 1) = k * a - k := by
      rw [Nat.mul_sub_one]
    omega
  have h2 : (k - 1) * a / k ≤ k * (a - 1) / k := Nat.div_le_div_right h1
  have h3 : k * (a - 1) / k = a - 1 := Nat.mul_div_cancel_left _ (by omega)
  omega

/-- C2: for every window of span at least 2 and every split factor in the
range the adaptive splitter computes (2 ≤ k ≤ min 12 span), the k generated
sub-windows exactly tile the parent window: there are k of them, the first
starts at the window start, each sub-window's end is the next one's start,
the last ends at the window end, each is non-empty, and no two overlap. -/
theorem c2_tiling (s e k : Nat) (hspan : 2 ≤ e - s) (hk2 : 2 ≤ k)
    (hks : k ≤ e - s) (hk12 : k ≤ 12) :
    (subWindows s e k).length = k ∧
    (subW s e k 0).1 = s ∧
    (subW s e k (k - 1)).2 = e ∧
    (∀ i, i + 1 < k → (subW s e k i).2 = (subW s e k (i + 1)).1) ∧
    (∀ i, i < k → (subW s e k i).1 < (subW s e k i).2) ∧
    (∀ i j, i < j → j < k → (subW s e k i).2 ≤ (subW s e k j).1) := by
  have hse : s < e := by omega
  refine ⟨by simp [subWindows], ?_, ?_, ?_, ?_, ?_⟩
  · rw [subW_eq s e k 0 (by omega)]
    simp
  · rw [subW_eq s e k (k - 1) (by omega)]
    simp
  · intro i hi
    rw [subW_eq s e k i (by omega), subW_eq s e k (i + 1) hi]
    have hne : i ≠ k - 1 := by omega
    simp [hne]
  · intro i hi
    rw [subW_eq s e k i hi]
    by_cases hik : i = k - 1
    · simp only [hik, if_true, eq_self_iff_true]
      have := last_div_lt (e - s) k hk2 hks
      omega
    · simp only [if_neg hik]
      have := div_mul_span_lt (e - s) k i hk2 hks
      omega
  · intro i j hij hjk
    rw [subW_eq s e k i (by omega), subW_eq s e k j hjk]
    have hine : i ≠ k - 1 := by omega
    simp only [if_neg hine]
    have h1 : (i + 1) * (e - s) ≤ j * (e - s) :=
      Nat.mul_le_mul_right _ (by omega)
    have h2 : (i + 1) * (e - s) / k ≤ j * (e - s) / k := Nat.div_le_div_right h1
    omega

/-- Witness for C2: the first split of a full day into 7 sub-windows. -/
theorem c2_tiling_witness :
    (subWindows 0 1440 7).length = 7 ∧
    (subW 0 1440 7 0).1 = 0 ∧
    (subW 0 1440 7 6).2 = 1440 ∧
    (subW 0 1440 7 2).2 = (subW 0 1440 7 3).1 ∧
    (subW 0 1440 7 2).1 < (subW 0 1440 7 2).2 ∧
    (subW 0 1440 7 2).2 ≤ (subW 0 1440 7 5).1 := by
  have h := c2_tiling 0 1440 7 (by decide) (by decide) (by decide) (by decide)
  exact ⟨h.1, h.2.1, h.2.2.1, h.2.2.2.1 2 (by decide), h.2.2.2.2.1 2 (by decide),
    h.2.2.2.2.2 2 5 (by decide) (by decide)⟩

/-! ## C4: window counter case analysis -/

theorem mem_insertRepo (s : List String) (r x : String) :
    x ∈ insertRepo s r ↔ x ∈ s ∨ x = r := by
  unfold insertRepo
  split_ifs with hm
  · constructor
    · exact Or.inl
    · rintro (h | rfl)
      · exact h
      · exact hm
  · simp

theorem mem_collectItems (items : List SearchItem) :
    ∀ (repos : List String) (r : String),
      r ∈ collectItems repos items ↔
        r ∈ repos ∨ (r ≠ "" ∧ ∃ it ∈ items, it.fullName = some r) := by
  induction items with
  | nil =>
    intro repos r
    simp [collectItems]
  | cons it rest ih =>
    intro repos r
    show r ∈ collectItems
      (match it.fullName with
       | some n => if n = "" then repos else insertRepo repos n
       | none => repos) rest ↔ _
    cases hfn : it.fullName with
    | none =>
      rw [ih]
      simp only [List.mem_cons]
      constructor
      · rintro (h | ⟨hne, it2, hit2, hr2⟩)
        · exact Or.inl h
        · exact Or.inr ⟨hne, it2, Or.inr hit2, hr2⟩
      · rintro (h | ⟨hne, it2, hit2 | hit2, hr2⟩)
        · exact Or.inl h
        · rw [hit2, hfn] at hr2
          cases hr2
        · exact Or.inr ⟨hne, it2, hit2, hr2⟩
    | some n =>
      show r ∈ collectItems (if n = "" then repos else insertRepo repos n) rest ↔ _
      by_cases hn : n = ""
      · rw [if_pos hn, ih]
        simp only [List.mem_cons]
        constructor
        · rintro (h | ⟨hne, it2, hit2, hr2⟩)
          · exact Or.inl h
          · exact Or.inr ⟨hne, it2, Or.inr hit2, hr2⟩
        · rintro (h | ⟨hne, it2, hit2 | hit2, hr2⟩)
          · exact Or.inl h
          · rw [hit2, hfn] at hr2
            exact absurd (by rw [← Option.some.inj hr2]; exact hn) hne
          · exact Or.inr ⟨hne, it2, hit2, hr2⟩
      · rw [if_neg hn, ih]
        simp only [List.mem_cons, mem_insertRepo]
        constructor
        · rintro ((h | rfl) | ⟨hne, it2, hit2, hr2⟩)
          · exact Or.inl h
          · exact Or.inr ⟨hn, it, Or.inl rfl, hfn⟩
          · exact Or.inr ⟨hne, it2, Or.inr hit2, hr2⟩
        · rintro (h | ⟨hne, it2, hit2 | hit2, hr2⟩)
          · exact Or.inl (Or.inl h)
          · rw [hit2, hfn] at hr2
            exact Or.inl (Or.inr (Option.some.inj hr2).symm)
          · exact Or.inr ⟨hne, it2, hit2, hr2⟩

theorem pagesFold (oracle : PageOracle) :
    ∀ (ps : List Nat) (repos0 : List String) (log0 : List PageRequest),
      (∀ r, r ∈ (ps.foldl (pageStep oracle) (repos0, log0)).1 ↔
        r ∈ repos0 ∨ ∃ p ∈ ps, ∃ b, oracle p 100 = some b ∧ r ≠ "" ∧
          ∃ it ∈ b.items, it.fullName = some r) ∧
      (ps.foldl (pageStep oracle) (repos0, log0)).2 =
        log0 ++ ps.map (fun p => ⟨p, 100⟩) := by
  intro ps
  induction ps with
  | nil =>
    intro repos0 log0
    simp
  | cons p rest ih =>
    intro repos0 log0
    cases hop : oracle p 100 with
    | none =>
      have hstep : pageStep oracle (repos0, log0) p = (repos0, log0 ++ [⟨p, 100⟩]) := by
        unfold pageStep
        rw [hop]
      show (∀ r, r ∈ (rest.foldl (pageStep oracle)
          (pageStep oracle (repos0, log0) p)).1 ↔ _) ∧
        (rest.foldl (pageStep oracle) (pageStep oracle (repos0, log0) p)).2 = _
      rw [hstep]
      obtain ⟨ih1, ih2⟩ := ih repos0 (log0 ++ [⟨p, 100⟩])
      constructor
      · intro r
        rw [ih1 r]
        constructor
        · rintro (h | ⟨q, hq, hb⟩)
          · exact Or.inl h
          · exact Or.inr ⟨q, List.mem_cons_of_mem _ hq, hb⟩
        · rintro (h | ⟨q, hq, b, hb, hrest⟩)
          · exact Or.inl h
          · rcases List.mem_cons.mp hq with rfl | hq2
            · rw [hop] at hb
              cases hb
            · exact Or.inr ⟨q, hq2, b, hb, hrest⟩
      · rw [ih2]
        simp
    | some b =>
      have hstep : pageStep oracle (repos0, log0) p =
          (collectItems repos0 b.items, log0 ++ [⟨p, 100⟩]) := by
        unfold pageStep
        rw [hop]
      show (∀ r, r ∈ (rest.foldl (pageStep oracle)
          (pageStep oracle (repos0, log0) p)).1 ↔ _) ∧
        (rest.foldl (pageStep oracle) (pageStep oracle (repos0, log0) p)).2 = _
      rw [hstep]
      obtain ⟨ih1, ih2⟩ := ih (collectItems repos0 b.items) (log0 ++ [⟨p, 100⟩])
      constructor
      · intro r
        rw [ih1 r, mem_collectItems b.items repos0 r]
        constructor
        · rintro ((h | ⟨hne, hit⟩) | ⟨q, hq, hb⟩)
          · exact Or.inl h
          · exact Or.inr ⟨p, List.mem_cons_self p rest, b, hop, hne, hit⟩
          · exact Or.inr ⟨q, List.mem_cons_of_mem _ hq, hb⟩
        · rintro (h | ⟨q, hq, b2, hb2, hne, hit⟩)
          · exact Or.inl (Or.inl h)
          · rcases List.mem_cons.mp hq with rfl | hq2
            · rw [hop] at hb2
              exact Or.inl (Or.inr ⟨hne, (Option.some.inj hb2) ▸ hit⟩)
            · exact Or.inr ⟨q, hq2, b2, hb2, hne, hit⟩
      · rw [ih2]
        simp

/-- C4: the window counter's postcondition. With a successful probe body:
a zero `total_count` returns the empty set after the probe request alone; a
`total_count` above 1000 returns `(none, total_count)` after the probe
request alone; otherwise it requests exactly pages 1 through
`ceil(total_count / 100)` at page size 100, returns
`(some repos, total_count)` where `repos` holds exactly the non-empty full
names of the items of the pages whose request returned a usable body —
pages returning no usable body are skipped, not fatal. -/
theorem c4_window_counter (oracle : PageOracle) (body : SearchBody)
    (hprobe : oracle 1 1 = some body) :
    (body.totalCount.getD 0 = 0 →
      fetchReposForWindow oracle = (some (some [], 0), [⟨1, 1⟩])) ∧
    (1000 < body.totalCount.getD 0 →
      fetchReposForWindow oracle =
        (some (none, body.totalCount.getD 0), [⟨1, 1⟩])) ∧
    (0 < body.totalCount.getD 0 → body.totalCount.getD 0 ≤ 1000 →
      ∃ repos,
        (fetchReposForWindow oracle).1 =
          some (some repos, body.totalCount.getD 0) ∧
        (∀ r, r ∈ repos ↔
          ∃ p ∈ List.range' 1 ((body.totalCount.getD 0 + 99) / 100),
            ∃ b, oracle p 100 = some b ∧ r ≠ "" ∧
              ∃ it ∈ b.items, it.fullName = some r) ∧
        (fetchReposForWindow oracle).2 =
          ⟨1, 1⟩ :: (List.range' 1 ((body.totalCount.getD 0 + 99) / 100)).map
            (fun p => ⟨p, 100⟩)) := by
  refine ⟨?_, ?_, ?_⟩
  · intro h0
    unfold fetchReposForWindow
    rw [hprobe]
    dsimp only
    rw [if_pos h0]
  · intro hbig
    unfold fetchReposForWindow
    rw [hprobe]
    dsimp only
    rw [if_neg (by omega), if_pos (by omega)]
  · intro hpos hle
    obtain ⟨hmem, hlog⟩ := pagesFold oracle
      (List.range' 1 ((body.totalCount.getD 0 + 99) / 100)) [] [⟨1, 1⟩]
    refine ⟨(((List.range' 1 ((body.totalCount.getD 0 + 99) / 100)).foldl
      (pageStep oracle) ([], [⟨1, 1⟩]))).1, ?_, ?_, ?_⟩
    · show (fetchReposForWindow oracle).1 = _
      unfold fetchReposForWindow
      rw [hprobe]
      dsimp only
      rw [if_neg (by omega), if_neg (by omega)]
    · intro r
      rw [hmem r]
      simp
    · show (fetchReposForWindow oracle).2 = _
      unfold fetchReposForWindow
      rw [hprobe]
      dsimp only
      rw [if_neg (by omega), if_neg (by omega)]
      rw [hlog]
      rfl

/-- Witness for C4 at three concrete oracles: zero matches, 2500 matches,
and 250 matches with page 2 failing. -/
theorem c4_window_counter_witness :
    fetchReposForWindow orcC4zero = (some (some [], 0), [⟨1, 1⟩]) ∧
    fetchReposForWindow orcC4big = (some (none, 2500), [⟨1, 1⟩]) ∧
    ∃ repos,
      (fetchReposForWindow orcC4mid).1 = some (some repos, 250) ∧
      (∀ r, r ∈ repos ↔
        ∃ p ∈ List.range' 1 ((250 + 99) / 100),
          ∃ b, orcC4mid p 100 = some b ∧ r ≠ "" ∧
            ∃ it ∈ b.items, it.fullName = some r) ∧
      (fetchReposForWindow orcC4mid).2 =
        ⟨1, 1⟩ :: (List.range' 1 ((250 + 99) / 100)).map (fun p => ⟨p, 100⟩) :=
  ⟨(c4_window_counter orcC4zero ⟨some 0, []⟩ rfl).1 (by decide),
   (c4_window_counter orcC4big ⟨some 2500, []⟩ rfl).2.1 (by decide),
   (c4_window_counter orcC4mid ⟨some 250, []⟩ rfl).2.2 (by decide) (by decide)⟩

/-! ## C3: adaptive splitter termination and floor behaviour -/

theorem floorScanGo_pages (oracle : PageOracle) :
    ∀ (rem page : Nat) (repos : List String),
      (floorScanGo oracle repos page rem).2.length ≤ rem ∧
      ∀ p ∈ (floorScanGo oracle repos page rem).2, page ≤ p ∧ p < page + rem := by
  intro rem
  induction rem with
  | zero =>
    intro page repos
    simp [floorScanGo]
  | succ n ih =>
    intro page repos
    unfold floorScanGo
    cases hop : oracle page 100 with
    | none =>
      constructor
      · simp
      · intro p hp
        rw [List.mem_singleton.mp hp]
        omega
    | some b =>
      dsimp only
      by_cases hemp : b.items.isEmpty
      · rw [if_pos hemp]
        constructor
        · simp
        · intro p hp
          rw [List.mem_singleton.mp hp]
          omega
      · rw [if_neg hemp]
        obtain ⟨ih1, ih2⟩ := ih (page + 1) (collectItems repos b.items)
        constructor
        · simpa using ih1
        · intro p hp
          rcases List.mem_cons.mp hp with rfl | hp2
          · omega
          · have := ih2 p hp2
            omega

theorem foldSubs_isSome (G : Nat × Nat → Option (Option (List String))) :
    ∀ (ws : List (Nat × Nat)), (∀ w ∈ ws, (G w).isSome = true) →
    ∀ (init : List String),
      ((ws.foldl (fun acc w =>
        match acc with
        | none => none
        | some allRepos =>
          match G w with
          | none => none
          | some none => some allRepos
          | some (some subRepos) => some (subRepos.foldl insertRepo allRepos))
        (some init)).isSome = true) := by
  intro ws
  induction ws with
  | nil =>
    intro _ init
    simp
  | cons w rest ih =>
    intro h init
    have hw := h w (List.mem_cons_self w rest)
    obtain ⟨v, hv⟩ := Option.isSome_iff_exists.mp hw
    have hrest := fun w2 hw2 => h w2 (List.mem_cons_of_mem w hw2)
    cases v with
    | none =>
      show (rest.foldl _
        (match some init with
         | none => none
         | some allRepos => match G w with
           | none => none
           | some none => some allRepos
           | some (some subRepos) => some (subRepos.foldl insertRepo allRepos))).isSome = true
      rw [hv]
      exact ih hrest init
    | some subRepos =>
      show (rest.foldl _
        (match some init with
         | none => none
         | some allRepos => match G w with
           | none => none
           | some none => some allRepos
           | some (some subRepos) => some (subRepos.foldl insertRepo allRepos))).isSome = true
      rw [hv]
      exact ih hrest (subRepos.foldl insertRepo init)

theorem adaptiveFuel_isSome (oracle : WOracle) :
    ∀ fuel s e depth maxd, maxd - depth < fuel →
      (adaptiveFuel oracle fuel s e depth maxd).isSome = true := by
  intro fuel
  induction fuel with
  | zero =>
    intro s e depth maxd h
    omega
  | succ n ih =>
    intro s e depth maxd h
    rw [adaptiveFuel]
    cases hp : (fetchReposForWindow (oracle s e)).1 with
    | none => simp
    | some pr =>
      obtain ⟨reposOpt, tc⟩ := pr
      cases reposOpt with
      | some repos => simp
      | none =>
        dsimp only
        by_cases hfloor : depth ≥ maxd ∨ e - s < 2
        · rw [if_pos hfloor]
          simp
        · rw [if_neg hfloor]
          have hd : depth < maxd := by
            rcases not_or.mp hfloor with ⟨h1, _⟩
            omega
          have hsome := foldSubs_isSome
            (fun w => adaptiveFuel oracle n w.1 w.2 (depth + 1) maxd)
            (subWindows s e (nSplits tc (e - s)))
            (fun w _ => ih w.1 w.2 (depth + 1) maxd (by omega)) []
          obtain ⟨v, hv⟩ := Option.isSome_iff_exists.mp hsome
          rw [hv]
          simp

theorem adaptiveFuel_floor (oracle : WOracle) (fuel s e depth maxd : Nat)
    (hfuel : 0 < fuel) (hfloor : depth ≥ maxd ∨ e - s < 2) (tc : Nat)
    (hp : (fetchReposForWindow (oracle s e)).1 = some (none, tc)) :
    adaptiveFuel oracle fuel s e depth maxd =
      some (some (floorScan (oracle s e)).1) := by
  obtain ⟨m, rfl⟩ : ∃ m, fuel = m + 1 := ⟨fuel - 1, by omega⟩
  rw [adaptiveFuel, hp]
  dsimp only
  rw [if_pos hfloor]

/-- C3 counterexample: at the recursion floor (`depth = maxDepth = 5`) with
an oracle whose probe request fails, `_fetch_repos_adaptive` returns `None`
— a null result, with no best-effort scan — refuting "whenever depth ≥
maxDepth or span < 2 it performs a bounded best-effort scan and returns a
non-null set" for this concrete input (the claim holds only when the probe
succeeds and reports a non-enumerable count). -/
theorem c3_counterexample :
    adaptiveFuel (fun _ _ _ _ => none) 1 0 1440 5 5 = some none ∧
    ¬ ∃ repos, adaptiveFuel (fun _ _ _ _ => none) 1 0 1440 5 5 =
      some (some repos) := by
  constructor
  · rfl
  · rintro ⟨repos, h⟩
    exact Option.noConfusion (Option.some.inj h)

/-- C3 (amended): the adaptive splitter terminates for every input — fuel
exceeding `maxDepth - depth` is never exhausted, because every recursive
call strictly increases `depth` and recursion stops at the floor — and
whenever `depth ≥ maxDepth` or the span is below 2 minutes, it does not
recurse: if the probe succeeds and reports a non-enumerable count it
returns the bounded best-effort scan of the unsplit window, which requests
at most 10 pages (pages 1 through 10) and yields a non-null set. -/
theorem c3_termination_amended (oracle : WOracle)
    (fuel startMin endMin depth maxDepth : Nat)
    (hfuel : maxDepth - depth < fuel) :
    (adaptiveFuel oracle fuel startMin endMin depth maxDepth).isSome = true ∧
    ((depth ≥ maxDepth ∨ endMin - startMin < 2) →
      ∀ tc, (fetchReposForWindow (oracle startMin endMin)).1 = some (none, tc) →
        adaptiveFuel oracle fuel startMin endMin depth maxDepth =
          some (some (floorScan (oracle startMin endMin)).1)) ∧
    (floorScan (oracle startMin endMin)).2.length ≤ 10 ∧
    (∀ p ∈ (floorScan (oracle startMin endMin)).2, 1 ≤ p ∧ p ≤ 10) := by
  obtain ⟨hlen, hpages⟩ := floorScanGo_pages (oracle startMin endMin) 10 1 []
  refine ⟨adaptiveFuel_isSome oracle fuel startMin endMin depth maxDepth hfuel,
    fun hfloor tc hp =>
      adaptiveFuel_floor oracle fuel startMin endMin depth maxDepth
        (by omega) hfloor tc hp,
    hlen, fun p hp => ?_⟩
  have := hpages p hp
  omega

/-- Witness for C3: an oracle reporting 2500 matches for every window, so
every branch eventually floors; fuel 6 suffices from depth 0 with
`maxDepth = 5`, and at `depth = 5` the result is the floor scan. -/
theorem c3_termination_amended_witness :
    (adaptiveFuel orcC3 6 0 1440 0 5).isSome = true ∧
    adaptiveFuel orcC3 1 0 1440 5 5 = some (some (floorScan (orcC3 0 1440)).1) ∧
    (floorScan (orcC3 0 1440)).2.length ≤ 10 :=
  ⟨(c3_termination_amended orcC3 6 0 1440 0 5 (by decide)).1,
   (c3_termination_amended orcC3 1 0 1440 5 5 (by decide)).2.1
     (Or.inl (by decide)) 2500 (by decide),
   (c3_termination_amended orcC3 6 0 1440 0 5 (by decide)).2.2.1⟩

end ClaudeIndex
